import Mathlib

/-!
Verification of the gallery-generation core of `connect-gallery-action`
(`src/scripts/generate-gallery-lib.ts` and `src/scripts/types/index.ts`).

JavaScript strings are modelled as Lean `String` (sequences of characters);
JSON documents produced by `JSON.parse` are modelled by the `Json` inductive
below together with an executable parser `parseJson` following the JSON
grammar accepted by `JSON.parse`.  JSON numbers are kept as their literal
text, since the program never computes with them.
-/

/-- Model of a JavaScript value produced by `JSON.parse`. -/
inductive Json where
  | null : Json
  | boolean (b : Bool) : Json
  | num (lit : String) : Json
  | str (s : String) : Json
  | arr (elems : List Json) : Json
  | obj (fields : List (String × Json)) : Json

/-- Decides whether a JSON number literal denotes zero: every digit of its
integer and fraction parts is `0` (the exponent never affects zeroness). -/
def numLitZero (lit : String) : Bool :=
  ((lit.data.takeWhile (fun c => c ≠ 'e' ∧ c ≠ 'E')).filter Char.isDigit).all
    (fun c => c = '0')

/-- Truthiness of a JavaScript value, as used by `||` and `cond ? a : b`. -/
def jsTruthy : Json → Bool
  | Json.null => false
  | Json.boolean b => b
  | Json.num lit => !(numLitZero lit)
  | Json.str s => !(s == "")
  | Json.arr _ => true
  | Json.obj _ => true

/-- Lookup of an object field; for duplicate keys `JSON.parse` keeps the
last occurrence, so the last binding wins. -/
def jsonLookupLast (fields : List (String × Json)) (k : String) : Option Json :=
  fields.foldl (fun acc p => if p.1 = k then some p.2 else acc) none

/-- Named-property access `v.k` on a JavaScript value: object fields, plus
the `length` property of arrays and strings.  Other accesses used by the
program yield `undefined`, modelled as `none`. -/
def jsGetProp : Json → String → Option Json
  | Json.obj fields, k => jsonLookupLast fields k
  | Json.arr elems, k =>
      if k = "length" then some (Json.num (toString elems.length)) else none
  | Json.str s, k =>
      if k = "length" then some (Json.num (toString s.length)) else none
  | _, _ => none

/-- Optional-chain access `o?.k`: `undefined` when the receiver is missing. -/
def jsOptChain (o : Option Json) (k : String) : Option Json :=
  o.bind (fun v => jsGetProp v k)

/-- Truthiness of a possibly-`undefined` value. -/
def jsTruthyOpt : Option Json → Bool
  | some v => jsTruthy v
  | none => false

/-! JSON parsing, following the grammar accepted by `JSON.parse`
(ECMA-404): values are objects, arrays, strings, numbers, `true`,
`false`, `null`; whitespace is space, tab, line feed, carriage return. -/

/-- Whitespace accepted between JSON tokens. -/
def isJsonWs (c : Char) : Bool :=
  c = ' ' ∨ c = '\t' ∨ c = '\n' ∨ c = '\r'

/-- Drops leading JSON whitespace. -/
def skipWs (cs : List Char) : List Char :=
  cs.dropWhile isJsonWs

/-- Value of a hexadecimal digit, if any. -/
def hexVal (c : Char) : Option Nat :=
  if '0' ≤ c ∧ c ≤ '9' then some (c.toNat - 48)
  else if 'a' ≤ c ∧ c ≤ 'f' then some (c.toNat - 87)
  else if 'A' ≤ c ∧ c ≤ 'F' then some (c.toNat - 55)
  else none

/-- Turns a UTF-16 code unit outside the surrogate range into a character;
a lone surrogate (unrepresentable in a Lean `String`) becomes U+FFFD. -/
def codeUnitChar (n : Nat) : Char :=
  if h : n.isValidChar then Char.ofNatAux n h else Char.ofNat 0xFFFD

/-- Parses the body of a JSON string after the opening quote, decoding
escapes; returns the decoded characters and the input after the closing
quote.  Surrogate pairs in `\uXXXX` escapes are combined. -/
def parseStrLoop : Nat → List Char → Option (List Char × List Char)
  | 0, _ => none
  | _, [] => none
  | fuel + 1, c :: cs =>
    if c = '"' then some ([], cs)
    else if c = '\\' then
      match cs with
      | [] => none
      | e :: cs' =>
        let simpleEsc : Option Char :=
          if e = '"' then some '"'
          else if e = '\\' then some '\\'
          else if e = '/' then some '/'
          else if e = 'b' then some (Char.ofNat 8)
          else if e = 'f' then some (Char.ofNat 12)
          else if e = 'n' then some '\n'
          else if e = 'r' then some '\r'
          else if e = 't' then some '\t'
          else none
        match simpleEsc with
        | some d =>
          match parseStrLoop fuel cs' with
          | some (tail, rest) => some (d :: tail, rest)
          | none => none
        | none =>
          if e = 'u' then
            match cs' with
            | h1 :: h2 :: h3 :: h4 :: cs'' =>
              match hexVal h1, hexVal h2, hexVal h3, hexVal h4 with
              | some a, some b, some c3, some d4 =>
                let n := ((a * 16 + b) * 16 + c3) * 16 + d4
                if 0xD800 ≤ n ∧ n ≤ 0xDBFF then
                  match cs'' with
                  | '\\' :: 'u' :: g1 :: g2 :: g3 :: g4 :: cs3 =>
                    match hexVal g1, hexVal g2, hexVal g3, hexVal g4 with
                    | some p, some q, some r3, some s4 =>
                      let m := ((p * 16 + q) * 16 + r3) * 16 + s4
                      if 0xDC00 ≤ m ∧ m ≤ 0xDFFF then
                        let cp := 0x10000 + (n - 0xD800) * 0x400 + (m - 0xDC00)
                        match parseStrLoop fuel cs3 with
                        | some (tail, rest) => some (codeUnitChar cp :: tail, rest)
                        | none => none
                      else
                        match parseStrLoop fuel cs'' with
                        | some (tail, rest) => some (codeUnitChar n :: tail, rest)
                        | none => none
                    | _, _, _, _ =>
                      match parseStrLoop fuel cs'' with
                      | some (tail, rest) => some (codeUnitChar n :: tail, rest)
                      | none => none
                  | _ =>
                    match parseStrLoop fuel cs'' with
                    | some (tail, rest) => some (codeUnitChar n :: tail, rest)
                    | none => none
                else
                  match parseStrLoop fuel cs'' with
                  | some (tail, rest) => some (codeUnitChar n :: tail, rest)
                  | none => none
              | _, _, _, _ => none
            | _ => none
          else none
    else if c.toNat < 0x20 then none
    else
      match parseStrLoop fuel cs with
      | some (tail, rest) => some (c :: tail, rest)
      | none => none

/-- Parses a JSON number literal, returning its text and the rest. -/
def parseNumLit (cs : List Char) : Option (String × List Char) :=
  let (sign, cs1) :=
    match cs with
    | '-' :: rest => (['-'], rest)
    | _ => (([] : List Char), cs)
  let intPart := cs1.takeWhile Char.isDigit
  let cs2 := cs1.dropWhile Char.isDigit
  if intPart = [] then none
  else if intPart.length > 1 ∧ intPart.headD '0' = '0' then none
  else
    let (fracPart, cs3) :=
      match cs2 with
      | '.' :: rest =>
        let ds := rest.takeWhile Char.isDigit
        (('.' :: ds), rest.dropWhile Char.isDigit)
      | _ => (([] : List Char), cs2)
    if fracPart = ['.'] then none
    else
      let (expPart, cs4) :=
        match cs3 with
        | 'e' :: rest => expTail 'e' rest
        | 'E' :: rest => expTail 'E' rest
        | _ => (some ([] : List Char), cs3)
      match expPart with
      | none => none
      | some ep => some (String.mk (sign ++ intPart ++ fracPart ++ ep), cs4)
where
  /-- Parses the part of an exponent after `e`/`E`. -/
  expTail (e : Char) (rest : List Char) : Option (List Char) × List Char :=
    let (esign, rest1) :=
      match rest with
      | '+' :: r => (['+'], r)
      | '-' :: r => (['-'], r)
      | _ => (([] : List Char), rest)
    let ds := rest1.takeWhile Char.isDigit
    if ds = [] then (none, rest1)
    else (some (e :: (esign ++ ds)), rest1.dropWhile Char.isDigit)

mutual

/-- Parses one JSON value; leading whitespace must already be consumed.
Fuel bounds the recursion and is chosen large enough at top level. -/
def parseVal : Nat → List Char → Option (Json × List Char)
  | 0, _ => none
  | fuel + 1, cs =>
    match cs with
    | [] => none
    | '{' :: rest =>
      (match skipWs rest with
       | '}' :: rest1 => some (Json.obj [], rest1)
       | cs1 => parseObjFields fuel cs1 [])
    | '[' :: rest =>
      (match skipWs rest with
       | ']' :: rest1 => some (Json.arr [], rest1)
       | cs1 => parseArrItems fuel cs1 [])
    | '"' :: rest =>
      (match parseStrLoop (rest.length + 1) rest with
       | some (chars, rest') => some (Json.str (String.mk chars), rest')
       | none => none)
    | 't' :: 'r' :: 'u' :: 'e' :: rest => some (Json.boolean true, rest)
    | 'f' :: 'a' :: 'l' :: 's' :: 'e' :: rest => some (Json.boolean false, rest)
    | 'n' :: 'u' :: 'l' :: 'l' :: rest => some (Json.null, rest)
    | _ =>
      (match parseNumLit cs with
       | some (lit, rest) => some (Json.num lit, rest)
       | none => none)

/-- Parses the members of a JSON object after at least one member is known
to be present, accumulating parsed members in order. -/
def parseObjFields : Nat → List Char → List (String × Json) → Option (Json × List Char)
  | 0, _, _ => none
  | fuel + 1, cs, acc =>
    match cs with
    | '"' :: rest =>
      (match parseStrLoop (rest.length + 1) rest with
       | some (kchars, rest1) =>
         (match skipWs rest1 with
          | ':' :: rest2 =>
            (match parseVal fuel (skipWs rest2) with
             | some (v, rest3) =>
               (match skipWs rest3 with
                | ',' :: rest4 =>
                  parseObjFields fuel (skipWs rest4) (acc ++ [(String.mk kchars, v)])
                | '}' :: rest4 => some (Json.obj (acc ++ [(String.mk kchars, v)]), rest4)
                | _ => none)
             | none => none)
          | _ => none)
       | none => none)
    | _ => none

/-- Parses the elements of a JSON array after at least one element is known
to be present, accumulating parsed elements in order. -/
def parseArrItems : Nat → List Char → List Json → Option (Json × List Char)
  | 0, _, _ => none
  | fuel + 1, cs, acc =>
    match parseVal fuel cs with
    | some (v, rest) =>
      (match skipWs rest with
       | ',' :: rest2 => parseArrItems fuel (skipWs rest2) (acc ++ [v])
       | ']' :: rest2 => some (Json.arr (acc ++ [v]), rest2)
       | _ => none)
    | none => none

end

/-- Model of `JSON.parse`: `none` when parsing throws.  The fuel passed to
the value parser exceeds the recursion the input length can force. -/
def parseJson (s : String) : Option Json :=
  match parseVal (2 * s.length + 4) (skipWs s.data) with
  | some (j, rest) => if skipWs rest = [] then some j else none
  | none => none

/-! Model of the `semver` npm package functions the program imports:
`valid` (strict parse, returning `null` on failure) and `rcompare`
(reverse precedence comparison).  The strict grammar is
`v? major.minor.patch (-prerelease)? (+build)?` with no leading zeros on
numeric identifiers; inputs are trimmed, capped at 256 characters, and
the three main numbers are capped at `2^53 - 1`.  Numeric prerelease
identifiers strictly below `2^53 - 1` compare as numbers. -/

/-- Prerelease identifier as stored by the semver parser. -/
inductive PreId where
  | num (n : Nat) : PreId
  | str (s : String) : PreId
deriving DecidableEq

/-- Parsed semantic version. -/
structure SemVer where
  major : Nat
  minor : Nat
  patch : Nat
  pre : List PreId
  build : List String
deriving DecidableEq

/-- Largest integer a JavaScript number represents exactly. -/
def maxSafeInteger : Nat := 9007199254740991

/-- Characters allowed in whitespace trimmed by `String.trim`
(the ASCII part, which covers the inputs of interest). -/
def isJsTrimWs (c : Char) : Bool :=
  c = ' ' ∨ c = '\t' ∨ c = '\n' ∨ c = '\r' ∨ c.toNat = 11 ∨ c.toNat = 12

/-- Trims whitespace from both ends of a character sequence. -/
def trimWs (cs : List Char) : List Char :=
  ((cs.dropWhile isJsTrimWs).reverse.dropWhile isJsTrimWs).reverse

/-- Splits a character sequence at every dot. -/
def splitDot : List Char → List (List Char)
  | [] => [[]]
  | '.' :: rest => [] :: splitDot rest
  | c :: rest =>
    match splitDot rest with
    | s :: ss => (c :: s) :: ss
    | [] => [[c]]

/-- Decides whether a sequence is a numeric identifier without leading
zeros (`0` or a nonzero digit followed by digits). -/
def validNumId : List Char → Bool
  | [] => false
  | ['0'] => true
  | '0' :: _ => false
  | cs => cs.all Char.isDigit

/-- Decimal value of a digit sequence. -/
def decodeDigits (cs : List Char) : Nat :=
  cs.foldl (fun n c => n * 10 + (c.toNat - 48)) 0

/-- Characters allowed in prerelease and build identifiers. -/
def isIdentChar (c : Char) : Bool :=
  c.isDigit ∨ ('a' ≤ c ∧ c ≤ 'z') ∨ ('A' ≤ c ∧ c ≤ 'Z') ∨ c = '-'

/-- Decides whether a sequence is a valid prerelease identifier: nonempty,
made of identifier characters, and without leading zeros when numeric. -/
def validPreIdChars (cs : List Char) : Bool :=
  !cs.isEmpty ∧ cs.all isIdentChar ∧ (if cs.all Char.isDigit then validNumId cs else true)

/-- Converts a valid prerelease identifier to its stored form: an
all-digit identifier becomes a number when strictly below `2^53 - 1`. -/
def mkPreId (cs : List Char) : PreId :=
  if cs.all Char.isDigit ∧ decodeDigits cs < maxSafeInteger
  then PreId.num (decodeDigits cs)
  else PreId.str (String.mk cs)

/-- Parses one main-version component: numeric, no leading zeros, capped
at `2^53 - 1`. -/
def parseMainNum (cs : List Char) : Option Nat :=
  if validNumId cs ∧ decodeDigits cs ≤ maxSafeInteger
  then some (decodeDigits cs) else none

/-- Parses the dotted prerelease part. -/
def parsePre (cs : List Char) : Option (List PreId) :=
  let parts := splitDot cs
  if parts.all validPreIdChars then some (parts.map mkPreId) else none

/-- Parses the dotted build part: identifiers are nonempty sequences of
identifier characters. -/
def parseBuild (cs : List Char) : Option (List String) :=
  let parts := splitDot cs
  if parts.all (fun p => !p.isEmpty ∧ p.all isIdentChar)
  then some (parts.map String.mk) else none

/-- Model of `semver/functions/valid` composed with parsing: `none`
exactly when `valid` returns `null`. -/
def semverParse (s : String) : Option SemVer :=
  if s.length > 256 then none
  else
    let cs := trimWs s.data
    let cs :=
      match cs with
      | 'v' :: rest => rest
      | _ => cs
    let mainPart := cs.takeWhile (fun c => c ≠ '-' ∧ c ≠ '+')
    let rest := cs.dropWhile (fun c => c ≠ '-' ∧ c ≠ '+')
    match splitDot mainPart with
    | [ma, mi, pa] =>
      match parseMainNum ma, parseMainNum mi, parseMainNum pa with
      | some major, some minor, some patch =>
        (match rest with
         | [] => some ⟨major, minor, patch, [], []⟩
         | '+' :: b =>
           (match parseBuild b with
            | some build => some ⟨major, minor, patch, [], build⟩
            | none => none)
         | '-' :: pr =>
           let prPart := pr.takeWhile (fun c => c ≠ '+')
           (match pr.dropWhile (fun c => c ≠ '+') with
            | [] =>
              (match parsePre prPart with
               | some pre => some ⟨major, minor, patch, pre, []⟩
               | none => none)
            | _ :: b =>
              (match parsePre prPart, parseBuild b with
               | some pre, some build => some ⟨major, minor, patch, pre, build⟩
               | _, _ => none))
         | _ => none)
      | _, _, _ => none
    | _ => none

/-- Decides semver validity, as the program's `semverValid(v) === null`
test does. -/
def semverValid (s : String) : Bool :=
  (semverParse s).isSome

/-- Three-way comparison mirroring `compareIdentifiers` on numbers. -/
def cmpNum (a b : Nat) : Ordering :=
  if a = b then Ordering.eq else if a < b then Ordering.lt else Ordering.gt

/-- Comparison of characters by code point. -/
def cmpChar (a b : Char) : Ordering :=
  cmpNum a.toNat b.toNat

/-- Lexicographic three-way comparison of lists under an element
comparator; a list that runs out first sorts lower. -/
def cmpListBy (c : α → α → Ordering) : List α → List α → Ordering
  | [], [] => Ordering.eq
  | [], _ :: _ => Ordering.lt
  | _ :: _, [] => Ordering.gt
  | a :: as1, b :: bs1 => (c a b).then (cmpListBy c as1 bs1)

/-- Three-way comparison mirroring JavaScript `<` and `>` on strings:
lexicographic by character. -/
def cmpStr (a b : String) : Ordering :=
  cmpListBy cmpChar a.data b.data

/-- Comparison of prerelease identifiers: numeric identifiers sort below
string identifiers. -/
def cmpPreId : PreId → PreId → Ordering
  | PreId.num a, PreId.num b => cmpNum a b
  | PreId.num _, PreId.str _ => Ordering.lt
  | PreId.str _, PreId.num _ => Ordering.gt
  | PreId.str a, PreId.str b => cmpStr a b

/-- Comparison of prerelease parts: a version without prerelease sorts
above any version with one; otherwise identifiers compare pairwise and
a list that runs out first sorts lower. -/
def cmpPre : List PreId → List PreId → Ordering
  | [], [] => Ordering.eq
  | [], _ :: _ => Ordering.gt
  | _ :: _, [] => Ordering.lt
  | as1, bs1 => cmpListBy cmpPreId as1 bs1

/-- Semver precedence: major, minor, patch, then prerelease; build
metadata is ignored. -/
def cmpSemVer (x y : SemVer) : Ordering :=
  (cmpNum x.major y.major).then
    ((cmpNum x.minor y.minor).then
      ((cmpNum x.patch y.patch).then (cmpPre x.pre y.pre)))

/-- Parsed form of a version string, with an arbitrary default on strings
the program already validated never reach comparison unparsed. -/
def svKey (s : String) : SemVer :=
  (semverParse s).getD ⟨0, 0, 0, [], []⟩

/-- Model of `semver/functions/rcompare` on version strings: the reverse
of precedence comparison. -/
def semverRcompare (a b : String) : Ordering :=
  cmpSemVer (svKey b) (svKey a)

/-! Data model from `src/scripts/types/index.ts`.  Optional interface
fields become `Option`; `ExtensionVersion` metadata fields hold the
JavaScript values the program stores in them. -/

/-- Taxonomy bucket from static configuration. -/
structure Category where
  id : String
  title : String
  description : String
deriving DecidableEq

/-- Category configuration. -/
structure GalleryConfig where
  categories : List Category

/-- Runtime requirement inside an environment block. -/
structure LanguageRequirement where
  requires : String
deriving DecidableEq

/-- Environment block of a manifest. -/
structure ExtensionEnvironment where
  python : Option LanguageRequirement
  r : Option LanguageRequirement
  quarto : Option LanguageRequirement
deriving DecidableEq

/-- Fields of the `extension` block of a manifest. -/
structure ManifestExtension where
  name : String
  title : String
  description : String
  homepage : String
  version : String
  minimumConnectVersion : String
  requiredFeatures : Option (List String)
  category : Option String
  tags : Option (List String)
deriving DecidableEq

/-- Per-extension manifest. -/
structure ExtensionManifest where
  extension : ManifestExtension
  environment : Option ExtensionEnvironment
deriving DecidableEq

/-- Release asset in canonical shape. -/
structure GitHubReleaseAsset where
  name : String
  url : String
deriving DecidableEq

/-- Release record in canonical shape. -/
structure GitHubRelease where
  tagName : String
  publishedAt : String
  assets : List GitHubReleaseAsset
  body : String
deriving DecidableEq

/-- Derived fact about one release of one extension.  The three metadata
fields hold JavaScript values: strings and lists from the manifest are
injected into `Json` where the program falls back to them. -/
structure ExtensionVersion where
  version : String
  released : String
  url : String
  minimumConnectVersion : Json
  requiredFeatures : Option Json
  requiredEnvironment : Option Json

/-- Published view of an extension. -/
structure Extension where
  name : String
  title : String
  description : String
  homepage : String
  latestVersion : ExtensionVersion
  versions : List ExtensionVersion
  tags : List String
  category : Option String

/-- Final output document. -/
structure GalleryOutput where
  categories : List Category
  tags : List String
  requiredFeatures : List String
  extensions : List Extension

/-- Asset in the shape returned by the GitHub REST API. -/
structure GitHubApiAsset where
  name : String
  browser_download_url : String
deriving DecidableEq

/-- Release in the shape returned by the GitHub REST API. -/
structure GitHubApiRelease where
  tag_name : String
  published_at : String
  assets : List GitHubApiAsset
  body : String
deriving DecidableEq

/-- Encoding of a manifest environment block as the JavaScript object the
program would carry for it, fields in declaration order. -/
def envToJson (e : ExtensionEnvironment) : Json :=
  Json.obj
    ((match e.python with
      | some req => [("python", Json.obj [("requires", Json.str req.requires)])]
      | none => []) ++
     (match e.r with
      | some req => [("r", Json.obj [("requires", Json.str req.requires)])]
      | none => []) ++
     (match e.quarto with
      | some req => [("quarto", Json.obj [("requires", Json.str req.requires)])]
      | none => []))

/-- Model of JavaScript `tagName.split("@v")`: splits at each
non-overlapping occurrence of `@v`, scanning left to right. -/
def jsSplitAtV : List Char → List (List Char)
  | [] => [[]]
  | '@' :: 'v' :: rest => [] :: jsSplitAtV rest
  | c :: rest =>
    match jsSplitAtV rest with
    | s :: ss => (c :: s) :: ss
    | [] => [[c]]

/-- Version string the program extracts from a tag:
`release.tagName.split("@v")[1]` (the empty string stands for the
`undefined` that the prefix guard makes unreachable). -/
def extractedVersion (tagName : String) : String :=
  String.mk ((jsSplitAtV tagName.data).getD 1 [])

/-- Value of the `minimumConnectVersion` field:
`metadata?.minimumConnectVersion || manifest.extension.minimumConnectVersion`. -/
def pickMinimumConnectVersion (metadata : Option Json)
    (manifest : ExtensionManifest) : Json :=
  match jsOptChain metadata ("minimumConnectVersion") with
  | some v =>
    if jsTruthy v then v
    else Json.str manifest.extension.minimumConnectVersion
  | none => Json.str manifest.extension.minimumConnectVersion

/-- Value of the `requiredFeatures` field: the body's list when its
`length` is truthy, else the manifest's when its length is nonzero, else
absent (the spread of the empty object). -/
def pickRequiredFeatures (metadata : Option Json)
    (manifest : ExtensionManifest) : Option Json :=
  if jsTruthyOpt (jsOptChain (jsOptChain metadata ("requiredFeatures")) ("length"))
  then jsOptChain metadata ("requiredFeatures")
  else if (match manifest.extension.requiredFeatures with
           | some l => !(l.length == 0)
           | none => false)
  then some (Json.arr ((manifest.extension.requiredFeatures.getD []).map Json.str))
  else none

/-- Value of the `requiredEnvironment` field: the body's value when
truthy, else the manifest's environment when present, else absent. -/
def pickRequiredEnvironment (metadata : Option Json)
    (manifest : ExtensionManifest) : Option Json :=
  if jsTruthyOpt (jsOptChain metadata ("requiredEnvironment"))
  then jsOptChain metadata ("requiredEnvironment")
  else
    match manifest.environment with
    | some env => some (envToJson env)
    | none => none

/-- Translation of `parseExtensionRelease` from
`src/scripts/generate-gallery-lib.ts`. -/
def parseExtensionRelease (release : GitHubRelease) (extensionName : String)
    (manifest : ExtensionManifest) : Option ExtensionVersion :=
  if !(List.isPrefixOf (extensionName ++ "@v").data release.tagName.data) then none
  else
    match release.assets.find? (fun a => a.name == extensionName ++ ".tar.gz") with
    | none => none
    | some asset =>
      if !(semverValid (extractedVersion release.tagName)) then none
      else
        some
          { version := extractedVersion release.tagName
            released := release.publishedAt
            url := asset.url
            minimumConnectVersion :=
              pickMinimumConnectVersion (parseJson release.body) manifest
            requiredFeatures :=
              pickRequiredFeatures (parseJson release.body) manifest
            requiredEnvironment :=
              pickRequiredEnvironment (parseJson release.body) manifest }

/-- Model of JavaScript `Array.prototype.sort` with a consistent
comparator: the stable sort placing `a` before `b` whenever the
comparator does not order `a` after `b`. -/
def jsSortBy (cmp : α → α → Ordering) (l : List α) : List α :=
  l.insertionSort (fun a b => cmp a b ≠ Ordering.gt)

/-- Body of the `buildExtensions` loop for one manifest: skip (`none`)
when the manifest declares version `0.0.0`; parse every release and sort
the kept versions by descending semver; skip when none remain; otherwise
emit the Extension record (`push`). -/
def extensionFromManifest (manifest : ExtensionManifest)
    (releases : List GitHubRelease) : Option Extension :=
  if manifest.extension.version == "0.0.0" then none
  else
    match jsSortBy (fun a b => semverRcompare a.version b.version)
        (releases.filterMap
          (fun r => parseExtensionRelease r manifest.extension.name manifest)) with
    | [] => none
    | v :: vs =>
      some
        { name := manifest.extension.name
          title := manifest.extension.title
          description := manifest.extension.description
          homepage := manifest.extension.homepage
          latestVersion := v
          versions := v :: vs
          tags := manifest.extension.tags.getD []
          category := manifest.extension.category }

/-- Translation of `buildExtensions`: the loop over manifest values
collecting the non-skipped records, then the final name sort.  The
locale-aware name comparison `a.name.localeCompare(b.name)` depends on
the runtime locale, so it is taken as the parameter `lc`. -/
def buildExtensions (lc : String → String → Ordering)
    (manifests : List (String × ExtensionManifest))
    (releases : List GitHubRelease) : List Extension :=
  jsSortBy (fun a b => lc a.name b.name)
    (manifests.filterMap (fun kv => extensionFromManifest kv.2 releases))

/-- Model of `Set.prototype.add`: appends an element not yet present. -/
def setAdd (l : List String) (x : String) : List String :=
  if x ∈ l then l else l ++ [x]

/-- Translation of `collectTagsAndFeatures`; the two JavaScript `Set`s
are modelled as duplicate-free lists in insertion order. -/
def collectTagsAndFeatures (manifests : List (String × ExtensionManifest)) :
    List String × List String :=
  manifests.foldl
    (fun acc kv =>
      ((kv.2.extension.tags.getD []).foldl setAdd acc.1,
       (kv.2.extension.requiredFeatures.getD []).foldl setAdd acc.2))
    ([], [])

/-- Translation of `buildOutput`; `[...s].sort()` is the default
JavaScript sort, comparing strings lexicographically. -/
def buildOutput (extensions : List Extension) (config : GalleryConfig)
    (allTags : List String) (allFeatures : List String) : GalleryOutput :=
  { categories := config.categories
    tags := jsSortBy cmpStr allTags
    requiredFeatures := jsSortBy cmpStr allFeatures
    extensions := extensions }

/-- Modelled from the spec: the implementation of
`transformGitHubApiReleases` (the Release Normalizer) is not under
`src/`; only its tests, its `GitHubApiRelease` input type and its caller
are.  Per the spec it maps each raw record in order, renaming
`tag_name` to `tagName`, `published_at` to `publishedAt` and each
asset's `browser_download_url` to `url`, preserving `name` and `body`
with no other transformation. -/
def transformGitHubApiReleases (rs : List GitHubApiRelease) : List GitHubRelease :=
  rs.map
    (fun r =>
      { tagName := r.tag_name
        publishedAt := r.published_at
        assets := r.assets.map (fun a => { name := a.name, url := a.browser_download_url })
        body := r.body })

/-! Spec-side readings used to compare the code against the
specification's wording for claim C1. -/

/-- Characters after the first occurrence of `@v`, if any. -/
def dropThroughAtV : List Char → Option (List Char)
  | [] => none
  | '@' :: 'v' :: rest => some rest
  | _ :: rest => dropThroughAtV rest

/-- Characters before the next occurrence of `@v`. -/
def takeToAtV : List Char → List Char
  | [] => []
  | '@' :: 'v' :: _ => []
  | c :: rest => c :: takeToAtV rest

/-- Spec reading for C1: the version string as everything after the
first occurrence of `@v` in the tag. -/
def specAfterFirstAtV (tag : String) : String :=
  String.mk ((dropThroughAtV tag.data).getD [])

/-! Laws of three-way comparators, used to reason about `jsSortBy`. -/

/-- Laws of a consistent three-way comparator: orientation, transitivity
of strict comparison, and substitutivity of comparator equality. -/
structure CmpLaws (c : α → α → Ordering) : Prop where
  symm : ∀ a b, c a b = (c b a).swap
  lt_trans : ∀ {a b d}, c a b = Ordering.lt → c b d = Ordering.lt → c a d = Ordering.lt
  eq_subst : ∀ {a b} (d), c a b = Ordering.eq → c a d = c b d

theorem CmpLaws.eq_refl {c : α → α → Ordering} (h : CmpLaws c) (a : α) :
    c a a = Ordering.eq := by
  have hs := h.symm a a
  cases hc : c a a with
  | lt => rw [hc] at hs; exact absurd hs (by decide)
  | eq => rfl
  | gt => rw [hc] at hs; exact absurd hs (by decide)

theorem CmpLaws.gt_iff_lt {c : α → α → Ordering} (h : CmpLaws c) {a b : α} :
    c a b = Ordering.gt ↔ c b a = Ordering.lt := by
  have hs := h.symm a b
  constructor
  · intro hg
    rw [hg] at hs
    cases hc : c b a with
    | lt => rfl
    | eq => rw [hc] at hs; exact absurd hs (by decide)
    | gt => rw [hc] at hs; exact absurd hs (by decide)
  · intro hl
    rw [hl] at hs
    exact hs

theorem CmpLaws.eq_symm {c : α → α → Ordering} (h : CmpLaws c) {a b : α}
    (hab : c a b = Ordering.eq) : c b a = Ordering.eq := by
  have hs := h.symm b a
  rw [hab] at hs
  exact hs

theorem CmpLaws.eq_subst_right {c : α → α → Ordering} (h : CmpLaws c) {a b : α} (d : α)
    (hab : c a b = Ordering.eq) : c d a = c d b := by
  have h1 := h.symm d a
  have h2 := h.symm d b
  rw [h.eq_subst d hab] at h1
  rw [h1, h2]

theorem CmpLaws.le_trans {c : α → α → Ordering} (h : CmpLaws c) {a b d : α}
    (h1 : c a b ≠ Ordering.gt) (h2 : c b d ≠ Ordering.gt) : c a d ≠ Ordering.gt := by
  cases hab : c a b with
  | gt => exact absurd hab h1
  | eq => rw [h.eq_subst d hab]; exact h2
  | lt =>
    cases hbd : c b d with
    | gt => exact absurd hbd h2
    | eq => rw [← h.eq_subst_right a hbd, hab]; simp
    | lt => rw [h.lt_trans hab hbd]; simp

theorem CmpLaws.total {c : α → α → Ordering} (h : CmpLaws c) (a b : α) :
    c a b ≠ Ordering.gt ∨ c b a ≠ Ordering.gt := by
  cases hab : c a b with
  | gt => right; rw [h.gt_iff_lt.mp hab]; simp
  | eq => left; simp
  | lt => left; simp

theorem CmpLaws.then_comp {c1 c2 : α → α → Ordering} (h1 : CmpLaws c1) (h2 : CmpLaws c2) :
    CmpLaws (fun a b => (c1 a b).then (c2 a b)) := by
  constructor
  · intro a b
    show (c1 a b).then (c2 a b) = ((c1 b a).then (c2 b a)).swap
    rw [h1.symm a b, h2.symm a b]
    cases c1 b a <;> cases c2 b a <;> rfl
  · intro a b d hab hbd
    simp only [Ordering.then_eq_lt] at hab hbd ⊢
    rcases hab with hab | ⟨hab1, hab2⟩
    · rcases hbd with hbd | ⟨hbd1, hbd2⟩
      · exact Or.inl (h1.lt_trans hab hbd)
      · exact Or.inl (by rw [← h1.eq_subst_right a hbd1]; exact hab)
    · rcases hbd with hbd | ⟨hbd1, hbd2⟩
      · exact Or.inl (by rw [h1.eq_subst d hab1]; exact hbd)
      · exact Or.inr ⟨by rw [h1.eq_subst d hab1]; exact hbd1, h2.lt_trans hab2 hbd2⟩
  · intro a b d hab
    simp only [Ordering.then_eq_eq] at hab
    obtain ⟨hab1, hab2⟩ := hab
    show (c1 a d).then (c2 a d) = (c1 b d).then (c2 b d)
    rw [h1.eq_subst d hab1, h2.eq_subst d hab2]

theorem cmpLaws_on {c : β → β → Ordering} (h : CmpLaws c) (f : α → β) :
    CmpLaws (fun x y => c (f x) (f y)) := by
  constructor
  · intro a b
    exact h.symm (f a) (f b)
  · intro a b d hab hbd
    exact h.lt_trans hab hbd
  · intro a b d hab
    exact h.eq_subst (f d) hab

theorem cmpLaws_flip {c : α → α → Ordering} (h : CmpLaws c) :
    CmpLaws (fun a b => c b a) := by
  constructor
  · intro a b
    exact h.symm b a
  · intro a b d hab hbd
    exact h.lt_trans hbd hab
  · intro a b d hab
    exact h.eq_subst_right d (h.eq_symm hab)

theorem cmpNum_eq_iff {a b : Nat} : cmpNum a b = Ordering.eq ↔ a = b := by
  unfold cmpNum
  split_ifs <;> simp_all

theorem cmpNumLaws : CmpLaws cmpNum := by
  constructor
  · intro a b
    unfold cmpNum
    split_ifs <;> first | rfl | omega
  · intro a b d hab hbd
    unfold cmpNum at hab hbd ⊢
    split_ifs at hab hbd ⊢ <;> first | rfl | omega
  · intro a b d hab
    rw [cmpNum_eq_iff.mp hab]

theorem cmpListBy_eq {c : α → α → Ordering} (he : ∀ {a b}, c a b = Ordering.eq → a = b) :
    ∀ {x y : List α}, cmpListBy c x y = Ordering.eq → x = y
  | [], [], _ => rfl
  | [], _ :: _, h => by simp [cmpListBy] at h
  | _ :: _, [], h => by simp [cmpListBy] at h
  | a :: as1, b :: bs1, h => by
    unfold cmpListBy at h
    rw [Ordering.then_eq_eq] at h
    obtain ⟨h1, h2⟩ := h
    cases he h1
    rw [cmpListBy_eq he h2]

theorem cmpListByLaws {c : α → α → Ordering} (h : CmpLaws c)
    (he : ∀ {a b}, c a b = Ordering.eq → a = b) : CmpLaws (cmpListBy c) := by
  constructor
  · intro x y
    induction x generalizing y with
    | nil => cases y <;> rfl
    | cons a as1 ih =>
      cases y with
      | nil => rfl
      | cons b bs1 =>
        show (c a b).then (cmpListBy c as1 bs1) = ((c b a).then (cmpListBy c bs1 as1)).swap
        rw [h.symm a b, ih bs1]
        cases c b a <;> cases cmpListBy c bs1 as1 <;> rfl
  · intro x y z hxy hyz
    induction x generalizing y z with
    | nil =>
      cases y with
      | nil => simp [cmpListBy] at hxy
      | cons b bs =>
        cases z with
        | nil => simp [cmpListBy] at hyz
        | cons d ds => rfl
    | cons a as1 ih =>
      cases y with
      | nil => simp [cmpListBy] at hxy
      | cons b bs =>
        cases z with
        | nil => simp [cmpListBy] at hyz
        | cons d ds =>
          unfold cmpListBy at hxy hyz ⊢
          rw [Ordering.then_eq_lt] at hxy hyz ⊢
          rcases hxy with hxy | ⟨hxy1, hxy2⟩
          · rcases hyz with hyz | ⟨hyz1, hyz2⟩
            · exact Or.inl (h.lt_trans hxy hyz)
            · cases he hyz1
              exact Or.inl hxy
          · cases he hxy1
            rcases hyz with hyz | ⟨hyz1, hyz2⟩
            · exact Or.inl hyz
            · cases he hyz1
              exact Or.inr ⟨h.eq_refl a, ih hxy2 hyz2⟩
  · intro x y d hxy
    cases cmpListBy_eq he hxy
    rfl

theorem cmpChar_eq {a b : Char} (h : cmpChar a b = Ordering.eq) : a = b :=
  Char.eq_of_val_eq (UInt32.ext (cmpNum_eq_iff.mp h))

theorem cmpCharLaws : CmpLaws cmpChar :=
  cmpLaws_on cmpNumLaws Char.toNat

theorem cmpStr_eq {a b : String} (h : cmpStr a b = Ordering.eq) : a = b :=
  String.ext (cmpListBy_eq (fun hc => cmpChar_eq hc) h)

theorem cmpStrLaws : CmpLaws cmpStr :=
  cmpLaws_on (cmpListByLaws cmpCharLaws (fun hc => cmpChar_eq hc)) String.data

theorem cmpPreId_eq : ∀ {a b : PreId}, cmpPreId a b = Ordering.eq → a = b
  | PreId.num a, PreId.num b, h => by rw [cmpNum_eq_iff.mp h]
  | PreId.num _, PreId.str _, h => by simp [cmpPreId] at h
  | PreId.str _, PreId.num _, h => by simp [cmpPreId] at h
  | PreId.str a, PreId.str b, h => by rw [cmpStr_eq h]

theorem cmpPreIdLaws : CmpLaws cmpPreId := by
  constructor
  · intro a b
    cases a with
    | num x =>
      cases b with
      | num y => exact cmpNumLaws.symm x y
      | str y => rfl
    | str x =>
      cases b with
      | num y => rfl
      | str y => exact cmpStrLaws.symm x y
  · intro a b d hab hbd
    cases a with
    | num x =>
      cases b with
      | num y =>
        cases d with
        | num z => exact cmpNumLaws.lt_trans hab hbd
        | str z => rfl
      | str y =>
        cases d with
        | num z => exact absurd hbd (by simp [cmpPreId])
        | str z => rfl
    | str x =>
      cases b with
      | num y => exact absurd hab (by simp [cmpPreId])
      | str y =>
        cases d with
        | num z => exact absurd hbd (by simp [cmpPreId])
        | str z => exact cmpStrLaws.lt_trans hab hbd
  · intro a b d hab
    cases cmpPreId_eq hab
    rfl

theorem cmpPre_eq : ∀ {x y : List PreId}, cmpPre x y = Ordering.eq → x = y
  | [], [], _ => rfl
  | [], _ :: _, h => by simp [cmpPre] at h
  | _ :: _, [], h => by simp [cmpPre] at h
  | _ :: _, _ :: _, h => cmpListBy_eq (fun hc => cmpPreId_eq hc) h

theorem cmpPreLaws : CmpLaws cmpPre := by
  have hlist := cmpListByLaws cmpPreIdLaws (fun hc => cmpPreId_eq hc)
  constructor
  · intro x y
    cases x with
    | nil => cases y <;> rfl
    | cons a as1 =>
      cases y with
      | nil => rfl
      | cons b bs1 => exact hlist.symm (a :: as1) (b :: bs1)
  · intro x y z hxy hyz
    cases x with
    | nil =>
      cases y with
      | nil => exact absurd hxy (by simp [cmpPre])
      | cons b bs => exact absurd hxy (by simp [cmpPre])
    | cons a as1 =>
      cases y with
      | nil => exact absurd hyz (by cases z <;> simp [cmpPre])
      | cons b bs =>
        cases z with
        | nil => rfl
        | cons d ds => exact hlist.lt_trans hxy hyz
  · intro x y d hxy
    cases cmpPre_eq hxy
    rfl

theorem cmpSemVerLaws : CmpLaws cmpSemVer :=
  (cmpLaws_on cmpNumLaws SemVer.major).then_comp
    ((cmpLaws_on cmpNumLaws SemVer.minor).then_comp
      ((cmpLaws_on cmpNumLaws SemVer.patch).then_comp (cmpLaws_on cmpPreLaws SemVer.pre)))

/-- Comparator the program sorts kept versions with:
`(a, b) => semverRcompare(a.version, b.version)`. -/
theorem rcompareVersionLaws :
    CmpLaws (fun a b : ExtensionVersion => semverRcompare a.version b.version) :=
  cmpLaws_flip (cmpLaws_on cmpSemVerLaws (fun v : ExtensionVersion => svKey v.version))

/-! Properties of `jsSortBy`. -/

theorem jsSortBy_perm (cmp : α → α → Ordering) (l : List α) : List.Perm (jsSortBy cmp l) l :=
  List.perm_insertionSort _ l

theorem jsSortBy_sorted {cmp : α → α → Ordering} (h : CmpLaws cmp) (l : List α) :
    (jsSortBy cmp l).Pairwise (fun a b => cmp a b ≠ Ordering.gt) := by
  haveI : IsTotal α (fun a b => cmp a b ≠ Ordering.gt) := ⟨h.total⟩
  haveI : IsTrans α (fun a b => cmp a b ≠ Ordering.gt) := ⟨fun _ _ _ => h.le_trans⟩
  exact List.sorted_insertionSort _ l

theorem jsSortBy_pair {cmp : α → α → Ordering} {a b : α} {l : List α}
    (hab : cmp a b ≠ Ordering.gt) (h : List.Sublist [a, b] l) :
    List.Sublist [a, b] (jsSortBy cmp l) :=
  List.pair_sublist_insertionSort hab h

/-! Claims C1 and C2: behaviour of `parseExtensionRelease`. -/

theorem jsSplitAtV_decomp (cs : List Char) :
    jsSplitAtV cs =
      takeToAtV cs :: ((dropThroughAtV cs).map jsSplitAtV).getD [] := by
  induction cs using jsSplitAtV.induct with
  | case1 => rfl
  | case2 rest => rfl
  | case3 c rest hnot s ss hsplit ih =>
    simp only [jsSplitAtV, takeToAtV, dropThroughAtV]
    rw [hsplit]
    rw [ih] at hsplit
    injection hsplit with h1 h2
    rw [h1, h2]
  | case4 c rest hnot hsplit ih =>
    rw [ih] at hsplit
    simp at hsplit

theorem jsSplitAtV_getD_one (cs : List Char) :
    (jsSplitAtV cs).getD 1 [] = takeToAtV ((dropThroughAtV cs).getD []) := by
  rw [jsSplitAtV_decomp cs]
  cases hd : dropThroughAtV cs with
  | none => rfl
  | some rest =>
    show (takeToAtV cs :: jsSplitAtV rest).getD 1 [] = takeToAtV rest
    rw [jsSplitAtV_decomp rest]
    rfl

/-- Fixture: release whose tag contains `@v` twice. -/
def releaseTwoAtV : GitHubRelease :=
  { tagName := "ext@v1.2.3@v4"
    publishedAt := "2024-06-01T00:00:00Z"
    assets := [{ name := "ext.tar.gz", url := "u" }]
    body := "" }

/-- Fixture: minimal manifest for the extension named `ext`. -/
def manifestExt : ExtensionManifest :=
  { extension :=
      { name := "ext", title := "T", description := "D", homepage := "H"
        version := "1.0.0", minimumConnectVersion := "2024.01.0"
        requiredFeatures := none, category := none, tags := none }
    environment := none }

/-- C1 is refuted: on the tag `ext@v1.2.3@v4`, where `@v` occurs twice,
extraction succeeds with version `1.2.3`, which is not everything after
the first occurrence of `@v` (that would be `1.2.3@v4`). -/
theorem parseExtensionRelease_version_not_afterFirst :
    (parseExtensionRelease releaseTwoAtV ("ext") manifestExt).map ExtensionVersion.version
        = some "1.2.3"
      ∧ specAfterFirstAtV releaseTwoAtV.tagName = "1.2.3@v4"
      ∧ (parseExtensionRelease releaseTwoAtV ("ext") manifestExt).map ExtensionVersion.version
          ≠ some (specAfterFirstAtV releaseTwoAtV.tagName) := by
  refine ⟨rfl, rfl, ?_⟩
  intro hcontra
  rw [show (parseExtensionRelease releaseTwoAtV ("ext") manifestExt).map ExtensionVersion.version
        = some "1.2.3" from rfl] at hcontra
  rw [show specAfterFirstAtV releaseTwoAtV.tagName = "1.2.3@v4" from rfl] at hcontra
  exact absurd (Option.some.inj hcontra) (by decide)

/-- C1 (amended): for every successfully parsed release, the stored
version is the part of the tag after the first occurrence of `@v` and
before the next occurrence of `@v` (to the end of the tag if none) —
not everything after the first occurrence. -/
theorem parseExtensionRelease_version_eq (release : GitHubRelease)
    (extensionName : String) (manifest : ExtensionManifest)
    (ev : ExtensionVersion)
    (h : parseExtensionRelease release extensionName manifest = some ev) :
    ev.version =
      String.mk (takeToAtV ((dropThroughAtV release.tagName.data).getD [])) := by
  rw [← jsSplitAtV_getD_one]
  unfold parseExtensionRelease at h
  split at h
  · exact absurd h (by simp)
  · split at h
    · exact absurd h (by simp)
    · split at h
      · exact absurd h (by simp)
      · injection h with h1
        rw [← h1]
        rfl

/-- Witness for the amended C1 at the two-`@v` fixture. -/
theorem parseExtensionRelease_version_eq_witness :
    ({ version := "1.2.3", released := "2024-06-01T00:00:00Z", url := "u"
       minimumConnectVersion := Json.str "2024.01.0"
       requiredFeatures := none, requiredEnvironment := none } :
        ExtensionVersion).version =
      String.mk (takeToAtV ((dropThroughAtV releaseTwoAtV.tagName.data).getD [])) :=
  parseExtensionRelease_version_eq releaseTwoAtV ("ext") manifestExt _ rfl

/-- C2: `parseExtensionRelease` returns `none` exactly when the tag lacks
the `<extensionName>@v` prefix, no asset is named
`<extensionName>.tar.gz`, or the extracted version string is not a valid
semantic version.  None of the three conditions depends on the release
body, so an unparseable body never causes rejection. -/
theorem parseExtensionRelease_none_iff (release : GitHubRelease)
    (extensionName : String) (manifest : ExtensionManifest) :
    parseExtensionRelease release extensionName manifest = none ↔
      (List.isPrefixOf (extensionName ++ "@v").data release.tagName.data = false
        ∨ release.assets.find? (fun a => a.name == extensionName ++ ".tar.gz") = none
        ∨ semverValid (extractedVersion release.tagName) = false) := by
  unfold parseExtensionRelease
  split
  · rename_i hpre
    rw [Bool.not_eq_true'] at hpre
    exact iff_of_true rfl (Or.inl hpre)
  · rename_i hpre
    rw [Bool.not_eq_true', Bool.not_eq_false] at hpre
    split
    · rename_i hfind
      exact iff_of_true rfl (Or.inr (Or.inl hfind))
    · rename_i asset hfind
      split
      · rename_i hsem
        rw [Bool.not_eq_true'] at hsem
        exact iff_of_true rfl (Or.inr (Or.inr hsem))
      · rename_i hsem
        rw [Bool.not_eq_true', Bool.not_eq_false] at hsem
        refine iff_of_false (by simp) ?_
        rintro (h | h | h)
        · rw [hpre] at h
          exact absurd h (by simp)
        · rw [hfind] at h
          exact absurd h (by simp)
        · rw [hsem] at h
          exact absurd h (by simp)

/-! Claims C5, C6 and C10: metadata fallback behaviour. -/

/-- Characterization of the fields of a successfully extracted version. -/
theorem parseExtensionRelease_some_fields (release : GitHubRelease)
    (extensionName : String) (manifest : ExtensionManifest) (ev : ExtensionVersion)
    (h : parseExtensionRelease release extensionName manifest = some ev) :
    ev.minimumConnectVersion = pickMinimumConnectVersion (parseJson release.body) manifest
      ∧ ev.requiredFeatures = pickRequiredFeatures (parseJson release.body) manifest
      ∧ ev.requiredEnvironment = pickRequiredEnvironment (parseJson release.body) manifest
      ∧ ev.released = release.publishedAt := by
  unfold parseExtensionRelease at h
  split at h
  · exact absurd h (by simp)
  · split at h
    · exact absurd h (by simp)
    · split at h
      · exact absurd h (by simp)
      · injection h with h1
        rw [← h1]
        exact ⟨rfl, rfl, rfl, rfl⟩

/-- C5: the `minimumConnectVersion` field — always present, by the type
of `ExtensionVersion` — equals the body's value when the body is valid
JSON carrying that field with a truthy (in particular, non-empty string)
value, and the manifest's `extension.minimumConnectVersion` when the
body does not parse, the field is absent, or its value is empty. -/
theorem parseExtensionRelease_minimumConnectVersion (release : GitHubRelease)
    (extensionName : String) (manifest : ExtensionManifest) (ev : ExtensionVersion)
    (h : parseExtensionRelease release extensionName manifest = some ev) :
    (∀ j v, parseJson release.body = some j →
        jsGetProp j ("minimumConnectVersion") = some v → jsTruthy v = true →
        ev.minimumConnectVersion = v)
      ∧ (parseJson release.body = none →
          ev.minimumConnectVersion = Json.str manifest.extension.minimumConnectVersion)
      ∧ (∀ j, parseJson release.body = some j →
          jsGetProp j ("minimumConnectVersion") = none →
          ev.minimumConnectVersion = Json.str manifest.extension.minimumConnectVersion)
      ∧ (∀ j v, parseJson release.body = some j →
          jsGetProp j ("minimumConnectVersion") = some v → jsTruthy v = false →
          ev.minimumConnectVersion = Json.str manifest.extension.minimumConnectVersion) := by
  obtain ⟨hmin, -, -, -⟩ := parseExtensionRelease_some_fields _ _ _ _ h
  refine ⟨?_, ?_, ?_, ?_⟩
  · intro j v hj hv htr
    rw [hmin]
    unfold pickMinimumConnectVersion
    rw [hj, show jsOptChain (some j) ("minimumConnectVersion") = some v from hv]
    simp [htr]
  · intro hnone
    rw [hmin]
    unfold pickMinimumConnectVersion
    rw [hnone]
    rfl
  · intro j hj hnf
    rw [hmin]
    unfold pickMinimumConnectVersion
    rw [hj, show jsOptChain (some j) ("minimumConnectVersion") = none from hnf]
  · intro j v hj hv hfalse
    rw [hmin]
    unfold pickMinimumConnectVersion
    rw [hj, show jsOptChain (some j) ("minimumConnectVersion") = some v from hv]
    simp [hfalse]

/-- Fixture: release whose body carries a `minimumConnectVersion`. -/
def releaseMeta : GitHubRelease :=
  { tagName := "ext@v1.0.0"
    publishedAt := "2024-06-01T00:00:00Z"
    assets := [{ name := "ext.tar.gz", url := "u" }]
    body := "\x7b\"minimumConnectVersion\":\"2025.01.0\"\x7d" }

set_option maxRecDepth 8192 in
/-- Witness for C5: with body `{"minimumConnectVersion":"2025.01.0"}`
and manifest value `2024.01.0`, the body's value wins. -/
theorem parseExtensionRelease_minimumConnectVersion_witness :
    ({ version := "1.0.0", released := "2024-06-01T00:00:00Z", url := "u"
       minimumConnectVersion := Json.str "2025.01.0"
       requiredFeatures := none, requiredEnvironment := none } :
        ExtensionVersion).minimumConnectVersion = Json.str "2025.01.0" :=
  (parseExtensionRelease_minimumConnectVersion releaseMeta ("ext") manifestExt _ rfl).1
    (Json.obj [("minimumConnectVersion", Json.str "2025.01.0")])
    (Json.str "2025.01.0") rfl rfl rfl

/-- C6: `requiredFeatures` is the body's value when present with truthy
`length`, else the manifest's list when non-empty, else entirely absent
(`none`, never an empty list); `requiredEnvironment` is the body's value
when present (truthy), else the manifest's environment when present,
else entirely absent. -/
theorem parseExtensionRelease_optional_metadata (release : GitHubRelease)
    (extensionName : String) (manifest : ExtensionManifest) (ev : ExtensionVersion)
    (h : parseExtensionRelease release extensionName manifest = some ev) :
    (∀ j v, parseJson release.body = some j →
        jsGetProp j ("requiredFeatures") = some v →
        jsTruthyOpt (jsGetProp v ("length")) = true →
        ev.requiredFeatures = some v)
      ∧ (∀ l, jsTruthyOpt (jsOptChain (jsOptChain (parseJson release.body)
            ("requiredFeatures")) ("length")) = false →
          manifest.extension.requiredFeatures = some l → l ≠ [] →
          ev.requiredFeatures = some (Json.arr (l.map Json.str)))
      ∧ (jsTruthyOpt (jsOptChain (jsOptChain (parseJson release.body)
            ("requiredFeatures")) ("length")) = false →
          (manifest.extension.requiredFeatures = none
            ∨ manifest.extension.requiredFeatures = some []) →
          ev.requiredFeatures = none)
      ∧ (∀ v, jsOptChain (parseJson release.body) ("requiredEnvironment") = some v →
          jsTruthy v = true → ev.requiredEnvironment = some v)
      ∧ (jsTruthyOpt (jsOptChain (parseJson release.body) ("requiredEnvironment")) = false →
          (∀ e, manifest.environment = some e →
            ev.requiredEnvironment = some (envToJson e))
          ∧ (manifest.environment = none → ev.requiredEnvironment = none)) := by
  obtain ⟨-, hfeat, henv, -⟩ := parseExtensionRelease_some_fields _ _ _ _ h
  refine ⟨?_, ?_, ?_, ?_, ?_⟩
  · intro j v hj hv htr
    rw [hfeat]
    unfold pickRequiredFeatures
    rw [hj, show jsOptChain (some j) ("requiredFeatures") = some v from hv]
    simp only [jsOptChain, Option.bind_some] at htr ⊢
    simp [jsTruthyOpt] at htr ⊢
    simp [htr]
  · intro l hcond hman hne
    rw [hfeat]
    unfold pickRequiredFeatures
    rw [hcond]
    simp only [Bool.false_eq_true, if_false, hman]
    have hlen : (!(l.length == 0)) = true := by
      cases l with
      | nil => exact absurd rfl hne
      | cons a as1 => rfl
    rw [hlen]
    simp [hman]
  · intro hcond hman
    rw [hfeat]
    unfold pickRequiredFeatures
    rw [hcond]
    rcases hman with hman | hman <;> simp [hman]
  · intro v hv htr
    rw [henv]
    unfold pickRequiredEnvironment
    rw [hv]
    simp [jsTruthyOpt, htr, hv]
  · intro hcond
    constructor
    · intro e he
      rw [henv]
      unfold pickRequiredEnvironment
      rw [hcond, he]
      simp
    · intro he
      rw [henv]
      unfold pickRequiredEnvironment
      rw [hcond, he]
      simp

/-- Fixture: release whose body carries features and an environment. -/
def releaseFeat : GitHubRelease :=
  { tagName := "ext@v1.0.0"
    publishedAt := "2024-06-01T00:00:00Z"
    assets := [{ name := "ext.tar.gz", url := "u" }]
    body := "\x7b\"requiredFeatures\":[\"f1\"],\"requiredEnvironment\":\x7b\"python\":\x7b\"requires\":\">=3.10\"\x7d\x7d\x7d" }

/-- Fixture: release with a free-text body that is not JSON. -/
def releasePlain : GitHubRelease :=
  { tagName := "ext@v1.0.0"
    publishedAt := "2024-06-01T00:00:00Z"
    assets := [{ name := "ext.tar.gz", url := "u" }]
    body := "just some release notes" }

/-- Fixture: manifest declaring features and an environment. -/
def manifestFull : ExtensionManifest :=
  { extension :=
      { name := "ext", title := "T", description := "D", homepage := "H"
        version := "1.0.0", minimumConnectVersion := "2024.01.0"
        requiredFeatures := some ["mf"], category := none, tags := none }
    environment := some { python := some { requires := ">=3.9" }, r := none, quarto := none } }

set_option maxRecDepth 8192 in
/-- Witness for C6: body metadata wins when present; with a non-JSON body
the manifest's non-empty features and environment are used. -/
theorem parseExtensionRelease_optional_metadata_witness :
    (({ version := "1.0.0", released := "2024-06-01T00:00:00Z", url := "u"
        minimumConnectVersion := Json.str "2024.01.0"
        requiredFeatures := some (Json.arr [Json.str "f1"])
        requiredEnvironment :=
          some (Json.obj [("python", Json.obj [("requires", Json.str ">=3.10")])]) } :
          ExtensionVersion).requiredFeatures = some (Json.arr [Json.str "f1"]))
      ∧ (({ version := "1.0.0", released := "2024-06-01T00:00:00Z", url := "u"
            minimumConnectVersion := Json.str "2024.01.0"
            requiredFeatures := some (Json.arr [Json.str "mf"])
            requiredEnvironment := some (envToJson
              { python := some { requires := ">=3.9" }, r := none, quarto := none }) } :
            ExtensionVersion).requiredFeatures = some (Json.arr [Json.str "mf"]))
      ∧ (({ version := "1.0.0", released := "2024-06-01T00:00:00Z", url := "u"
            minimumConnectVersion := Json.str "2024.01.0"
            requiredFeatures := some (Json.arr [Json.str "mf"])
            requiredEnvironment := some (envToJson
              { python := some { requires := ">=3.9" }, r := none, quarto := none }) } :
            ExtensionVersion).requiredEnvironment = some (envToJson
              { python := some { requires := ">=3.9" }, r := none, quarto := none })) := by
  refine ⟨?_, ?_, ?_⟩
  · exact (parseExtensionRelease_optional_metadata releaseFeat ("ext") manifestExt _ rfl).1
      (Json.obj [("requiredFeatures", Json.arr [Json.str "f1"]),
                 ("requiredEnvironment",
                  Json.obj [("python", Json.obj [("requires", Json.str ">=3.10")])])])
      (Json.arr [Json.str "f1"]) rfl rfl rfl
  · exact (parseExtensionRelease_optional_metadata releasePlain ("ext") manifestFull _
        rfl).2.1 ["mf"] rfl rfl (by decide)
  · exact ((parseExtensionRelease_optional_metadata releasePlain ("ext") manifestFull _
        rfl).2.2.2.2 rfl).1
      { python := some { requires := ">=3.9" }, r := none, quarto := none } rfl

/-- C10: when the release body is valid JSON whose value is not an
object (`null`, a boolean, a number, a string, or an array), extraction
does not fail and produces exactly the result it produces for a body
that is not valid JSON at all: every metadata field falls back to the
manifest. -/
theorem parseExtensionRelease_nonObject_body (release : GitHubRelease)
    (extensionName : String) (manifest : ExtensionManifest) (j : Json)
    (hj : parseJson release.body = some j)
    (hnotobj : ∀ fields, j ≠ Json.obj fields)
    (b2 : String) (hb2 : parseJson b2 = none) :
    parseExtensionRelease release extensionName manifest =
      parseExtensionRelease
        { tagName := release.tagName, publishedAt := release.publishedAt
          assets := release.assets, body := b2 } extensionName manifest := by
  have hget : ∀ k, k ≠ "length" → jsGetProp j k = none := by
    intro k hk
    cases j with
    | null => rfl
    | boolean b => rfl
    | num l => rfl
    | str s => simp [jsGetProp, hk]
    | arr es => simp [jsGetProp, hk]
    | obj fields => exact absurd rfl (hnotobj fields)
  have h1 : pickMinimumConnectVersion (parseJson release.body) manifest =
      pickMinimumConnectVersion none manifest := by
    unfold pickMinimumConnectVersion
    rw [hj,
      show jsOptChain (some j) ("minimumConnectVersion") = none from hget _ (by decide)]
    rfl
  have h2 : pickRequiredFeatures (parseJson release.body) manifest =
      pickRequiredFeatures none manifest := by
    unfold pickRequiredFeatures
    rw [hj,
      show jsOptChain (some j) ("requiredFeatures") = none from hget _ (by decide)]
    rfl
  have h3 : pickRequiredEnvironment (parseJson release.body) manifest =
      pickRequiredEnvironment none manifest := by
    unfold pickRequiredEnvironment
    rw [hj,
      show jsOptChain (some j) ("requiredEnvironment") = none from hget _ (by decide)]
    rfl
  unfold parseExtensionRelease
  simp only [h1, h2, h3, hb2]

/-! Claims C3, C4 and C8: behaviour of `buildExtensions`. -/

/-- Properties of one emitted record: its manifest is not `0.0.0`, its
name is the manifest's, its versions are the sorted kept versions, and
`latestVersion` heads the list. -/
theorem extensionFromManifest_some (manifest : ExtensionManifest)
    (releases : List GitHubRelease) (ext : Extension)
    (h : extensionFromManifest manifest releases = some ext) :
    manifest.extension.version ≠ "0.0.0"
      ∧ ext.name = manifest.extension.name
      ∧ ext.versions =
          jsSortBy (fun a b => semverRcompare a.version b.version)
            (releases.filterMap
              (fun r => parseExtensionRelease r manifest.extension.name manifest))
      ∧ ext.versions.head? = some ext.latestVersion := by
  unfold extensionFromManifest at h
  split at h
  · exact absurd h (by simp)
  · rename_i hv
    split at h
    · exact absurd h (by simp)
    · rename_i v vs hsort
      injection h with h1
      refine ⟨?_, ?_, ?_, ?_⟩
      · intro hcontra
        rw [hcontra] at hv
        exact hv rfl
      · rw [← h1]
      · rw [← h1, hsort]
      · rw [← h1]
        rfl

/-- Membership in `buildExtensions` output comes from some manifest. -/
theorem buildExtensions_mem (lc : String → String → Ordering)
    (manifests : List (String × ExtensionManifest))
    (releases : List GitHubRelease) (ext : Extension)
    (h : ext ∈ buildExtensions lc manifests releases) :
    ∃ p, p ∈ manifests ∧ extensionFromManifest p.2 releases = some ext := by
  unfold buildExtensions at h
  have hmem := (jsSortBy_perm (fun a b : Extension => lc a.name b.name)
    (manifests.filterMap (fun kv => extensionFromManifest kv.2 releases))).mem_iff.mp h
  obtain ⟨p, hp, hfm⟩ := List.mem_filterMap.mp hmem
  exact ⟨p, hp, hfm⟩

/-- C3: every emitted extension has a nonempty versions list and stems
from a manifest whose declared version is not `0.0.0`, with at least one
release that the Version Extractor does not reject. -/
theorem buildExtensions_excludes (lc : String → String → Ordering)
    (manifests : List (String × ExtensionManifest))
    (releases : List GitHubRelease) (ext : Extension)
    (h : ext ∈ buildExtensions lc manifests releases) :
    ext.versions ≠ []
      ∧ ∃ p, p ∈ manifests
          ∧ p.2.extension.name = ext.name
          ∧ p.2.extension.version ≠ "0.0.0"
          ∧ ∃ r, r ∈ releases ∧ parseExtensionRelease r ext.name p.2 ≠ none := by
  obtain ⟨p, hp, hfm⟩ := buildExtensions_mem lc manifests releases ext h
  obtain ⟨hv, hname, hvers, hhead⟩ := extensionFromManifest_some p.2 releases ext hfm
  have hne : ext.versions ≠ [] := by
    intro hcontra
    rw [hcontra] at hhead
    exact absurd hhead (by simp)
  refine ⟨hne, p, hp, hname.symm, hv, ?_⟩
  have hkept : releases.filterMap
      (fun r => parseExtensionRelease r p.2.extension.name p.2) ≠ [] := by
    intro hcontra
    rw [hvers, hcontra] at hne
    exact hne rfl
  obtain ⟨v, hvmem⟩ := List.exists_mem_of_ne_nil _ hkept
  obtain ⟨r, hr, hparse⟩ := List.mem_filterMap.mp hvmem
  refine ⟨r, hr, ?_⟩
  rw [← hname] at hparse
  rw [hparse]
  simp

/-- C4: each emitted extension's versions list is a permutation of the
kept (non-rejected) versions, sorted descending by semver precedence,
stable for comparator-equal versions, with `latestVersion` at index 0. -/
theorem buildExtensions_versions_spec (lc : String → String → Ordering)
    (manifests : List (String × ExtensionManifest))
    (releases : List GitHubRelease) (ext : Extension)
    (h : ext ∈ buildExtensions lc manifests releases) :
    ∃ p, p ∈ manifests
      ∧ p.2.extension.name = ext.name
      ∧ List.Perm ext.versions
          (releases.filterMap
            (fun r => parseExtensionRelease r p.2.extension.name p.2))
      ∧ ext.versions.Pairwise
          (fun a b => semverRcompare a.version b.version ≠ Ordering.gt)
      ∧ (∀ a b, semverRcompare a.version b.version = Ordering.eq →
          List.Sublist [a, b]
            (releases.filterMap
              (fun r => parseExtensionRelease r p.2.extension.name p.2)) →
          List.Sublist [a, b] ext.versions)
      ∧ ext.versions.head? = some ext.latestVersion := by
  obtain ⟨p, hp, hfm⟩ := buildExtensions_mem lc manifests releases ext h
  obtain ⟨hv, hname, hvers, hhead⟩ := extensionFromManifest_some p.2 releases ext hfm
  refine ⟨p, hp, hname.symm, ?_, ?_, ?_, hhead⟩
  · rw [hvers]
    exact jsSortBy_perm _ _
  · rw [hvers]
    exact jsSortBy_sorted rcompareVersionLaws _
  · intro a b hab hsub
    rw [hvers]
    refine jsSortBy_pair ?_ hsub
    show semverRcompare a.version b.version ≠ Ordering.gt
    rw [hab]
    simp

/-- C8: the extension list is sorted ascending under the locale
comparator, whenever that comparator is consistent. -/
theorem buildExtensions_sorted_by_name (lc : String → String → Ordering)
    (hlc : CmpLaws lc) (manifests : List (String × ExtensionManifest))
    (releases : List GitHubRelease) :
    (buildExtensions lc manifests releases).Pairwise
      (fun a b => lc a.name b.name ≠ Ordering.gt) := by
  unfold buildExtensions
  exact jsSortBy_sorted (cmpLaws_on hlc Extension.name) _

/-- Fixture: released manifest for `my-ext`. -/
def manifestMyExt : ExtensionManifest :=
  { extension :=
      { name := "my-ext", title := "My Extension", description := "A test extension"
        homepage := "https://example.com", version := "1.0.0"
        minimumConnectVersion := "2024.01.0"
        requiredFeatures := none, category := none, tags := some [] }
    environment := none }

/-- Fixture: same manifest but not yet released. -/
def manifestUnreleased : ExtensionManifest :=
  { extension :=
      { name := "my-ext", title := "My Extension", description := "A test extension"
        homepage := "https://example.com", version := "0.0.0"
        minimumConnectVersion := "2024.01.0"
        requiredFeatures := none, category := none, tags := some [] }
    environment := none }

/-- Fixture: release of `my-ext` 1.0.0. -/
def releaseV100 : GitHubRelease :=
  { tagName := "my-ext@v1.0.0", publishedAt := "2024-06-01T00:00:00Z"
    assets := [{ name := "my-ext.tar.gz", url := "https://example.com/my-ext.tar.gz" }]
    body := "" }

/-- Fixture: release of `my-ext` 0.9.0. -/
def releaseV090 : GitHubRelease :=
  { tagName := "my-ext@v0.9.0", publishedAt := "2024-05-01T00:00:00Z"
    assets := [{ name := "my-ext.tar.gz", url := "https://example.com/my-ext-0.9.tar.gz" }]
    body := "" }

/-- Extracted version 1.0.0 of `my-ext`. -/
def versionOneZero : ExtensionVersion :=
  { version := "1.0.0", released := "2024-06-01T00:00:00Z"
    url := "https://example.com/my-ext.tar.gz"
    minimumConnectVersion := Json.str "2024.01.0"
    requiredFeatures := none, requiredEnvironment := none }

/-- Extracted version 0.9.0 of `my-ext`. -/
def versionZeroNine : ExtensionVersion :=
  { version := "0.9.0", released := "2024-05-01T00:00:00Z"
    url := "https://example.com/my-ext-0.9.tar.gz"
    minimumConnectVersion := Json.str "2024.01.0"
    requiredFeatures := none, requiredEnvironment := none }

/-- Extension record built for `my-ext` from the two releases. -/
def extMyExt : Extension :=
  { name := "my-ext", title := "My Extension", description := "A test extension"
    homepage := "https://example.com", latestVersion := versionOneZero
    versions := [versionOneZero, versionZeroNine], tags := [], category := none }

set_option maxRecDepth 8192 in
/-- Witness for C3: `my-ext` is emitted with a nonempty versions list,
while the same setup with manifest version `0.0.0` emits nothing. -/
theorem buildExtensions_excludes_witness :
    extMyExt.versions ≠ []
      ∧ buildExtensions cmpStr [("my-ext", manifestUnreleased)] [releaseV100] = [] := by
  refine ⟨(buildExtensions_excludes cmpStr [("my-ext", manifestMyExt)]
    [releaseV100, releaseV090] extMyExt ?_).1, rfl⟩
  rw [show buildExtensions cmpStr [("my-ext", manifestMyExt)] [releaseV100, releaseV090]
      = [extMyExt] from rfl]
  exact List.mem_singleton.mpr rfl

set_option maxRecDepth 8192 in
/-- Witness for C4: with kept versions 1.0.0 and 0.9.0 the sorted list is
`["1.0.0", "0.9.0"]` and `latestVersion` is `versions[0]`, i.e. 1.0.0. -/
theorem buildExtensions_versions_spec_witness :
    extMyExt.versions.head? = some extMyExt.latestVersion
      ∧ extMyExt.versions.map ExtensionVersion.version = ["1.0.0", "0.9.0"]
      ∧ extMyExt.latestVersion.version = "1.0.0" := by
  have hmem : extMyExt ∈ buildExtensions cmpStr [("my-ext", manifestMyExt)]
      [releaseV100, releaseV090] := by
    rw [show buildExtensions cmpStr [("my-ext", manifestMyExt)] [releaseV100, releaseV090]
        = [extMyExt] from rfl]
    exact List.mem_singleton.mpr rfl
  obtain ⟨p, hp, hname, hperm, hsorted, hstable, hhead⟩ :=
    buildExtensions_versions_spec cmpStr [("my-ext", manifestMyExt)]
      [releaseV100, releaseV090] extMyExt hmem
  exact ⟨hhead, rfl, rfl⟩

/-- Fixture: manifest and release for `zebra`. -/
def manifestZebra : ExtensionManifest :=
  { extension :=
      { name := "zebra", title := "Z", description := "Z", homepage := "hz"
        version := "1.0.0", minimumConnectVersion := "2024.01.0"
        requiredFeatures := none, category := none, tags := some [] }
    environment := none }

/-- Fixture: manifest and release for `alpha`. -/
def manifestAlpha : ExtensionManifest :=
  { extension :=
      { name := "alpha", title := "A", description := "A", homepage := "ha"
        version := "1.0.0", minimumConnectVersion := "2024.01.0"
        requiredFeatures := none, category := none, tags := some [] }
    environment := none }

/-- Fixture: release of `zebra` 1.0.0. -/
def releaseZebra : GitHubRelease :=
  { tagName := "zebra@v1.0.0", publishedAt := "d"
    assets := [{ name := "zebra.tar.gz", url := "uz" }], body := "" }

/-- Fixture: release of `alpha` 1.0.0. -/
def releaseAlpha : GitHubRelease :=
  { tagName := "alpha@v1.0.0", publishedAt := "d"
    assets := [{ name := "alpha.tar.gz", url := "ua" }], body := "" }

set_option maxRecDepth 8192 in
/-- Witness for C8: with manifests `zebra` and `alpha` (in that input
order) the output names come out `["alpha", "zebra"]`, sorted under the
lexicographic comparator, which satisfies the comparator laws. -/
theorem buildExtensions_sorted_by_name_witness :
    (buildExtensions cmpStr [("zebra", manifestZebra), ("alpha", manifestAlpha)]
        [releaseZebra, releaseAlpha]).map Extension.name = ["alpha", "zebra"]
      ∧ (buildExtensions cmpStr [("zebra", manifestZebra), ("alpha", manifestAlpha)]
          [releaseZebra, releaseAlpha]).Pairwise
          (fun a b => cmpStr a.name b.name ≠ Ordering.gt) :=
  ⟨rfl, buildExtensions_sorted_by_name cmpStr cmpStrLaws
    [("zebra", manifestZebra), ("alpha", manifestAlpha)] [releaseZebra, releaseAlpha]⟩

/-! Claim C7: the Release Normalizer. -/

/-- C7: normalization is one-to-one and order preserving; each record
has `tag_name` under `tagName`, `published_at` under `publishedAt`, the
body preserved, and each asset's name preserved with its
`browser_download_url` under the canonical `url` field. -/
theorem transformGitHubApiReleases_spec (rs : List GitHubApiRelease) :
    (transformGitHubApiReleases rs).length = rs.length
      ∧ ∀ (i : Nat) (r : GitHubApiRelease), rs[i]? = some r →
          ∃ cr : GitHubRelease, (transformGitHubApiReleases rs)[i]? = some cr
            ∧ cr.tagName = r.tag_name
            ∧ cr.publishedAt = r.published_at
            ∧ cr.body = r.body
            ∧ cr.assets.length = r.assets.length
            ∧ ∀ (k : Nat) (a : GitHubApiAsset), r.assets[k]? = some a →
                ∃ ca : GitHubReleaseAsset, cr.assets[k]? = some ca
                  ∧ ca.name = a.name
                  ∧ ca.url = a.browser_download_url := by
  constructor
  · simp [transformGitHubApiReleases]
  · intro i r hir
    refine ⟨{ tagName := r.tag_name, publishedAt := r.published_at
              assets := r.assets.map
                (fun a => { name := a.name, url := a.browser_download_url })
              body := r.body }, ?_, rfl, rfl, rfl, by simp, ?_⟩
    · simp only [transformGitHubApiReleases, List.getElem?_map, hir]
      rfl
    · intro k a hka
      refine ⟨{ name := a.name, url := a.browser_download_url }, ?_, rfl, rfl⟩
      simp only [List.getElem?_map, hka]
      rfl

/-- Witness for C7 at a concrete two-release input. -/
theorem transformGitHubApiReleases_spec_witness :
    transformGitHubApiReleases
        [{ tag_name := "my-ext@v1.0.0", published_at := "2024-06-01T00:00:00Z"
           assets := [{ name := "my-ext.tar.gz"
                        browser_download_url := "https://example.com/my-ext.tar.gz" }]
           body := "release notes" },
         { tag_name := "my-ext@v0.9.0", published_at := "2024-05-01T00:00:00Z"
           assets := [], body := "" }] =
      [{ tagName := "my-ext@v1.0.0", publishedAt := "2024-06-01T00:00:00Z"
         assets := [{ name := "my-ext.tar.gz"
                      url := "https://example.com/my-ext.tar.gz" }]
         body := "release notes" },
       { tagName := "my-ext@v0.9.0", publishedAt := "2024-05-01T00:00:00Z"
         assets := [], body := "" }]
      ∧ (transformGitHubApiReleases
          [{ tag_name := "my-ext@v1.0.0", published_at := "2024-06-01T00:00:00Z"
             assets := [{ name := "my-ext.tar.gz"
                          browser_download_url := "https://example.com/my-ext.tar.gz" }]
             body := "release notes" },
           { tag_name := "my-ext@v0.9.0", published_at := "2024-05-01T00:00:00Z"
             assets := [], body := "" }]).length = 2 := by
  refine ⟨rfl, ?_⟩
  rw [(transformGitHubApiReleases_spec
    [{ tag_name := "my-ext@v1.0.0", published_at := "2024-06-01T00:00:00Z"
       assets := [{ name := "my-ext.tar.gz"
                    browser_download_url := "https://example.com/my-ext.tar.gz" }]
       body := "release notes" },
     { tag_name := "my-ext@v0.9.0", published_at := "2024-05-01T00:00:00Z"
       assets := [], body := "" }]).1]
  rfl

/-! Claim C9: the Tag/Feature Collector and the Output Assembler. -/

theorem setAdd_mem (t : String) (l : List String) (x : String) :
    t ∈ setAdd l x ↔ t ∈ l ∨ t = x := by
  unfold setAdd
  split
  · rename_i hx
    constructor
    · exact Or.inl
    · rintro (h | h)
      · exact h
      · rw [h]
        exact hx
  · simp [List.mem_append]

theorem setAdd_nodup (l : List String) (x : String) (h : l.Nodup) :
    (setAdd l x).Nodup := by
  unfold setAdd
  split
  · exact h
  · rename_i hx
    simp [List.nodup_append, h, hx]

theorem foldl_setAdd_mem (t : String) :
    ∀ (xs : List String) (acc : List String),
      t ∈ xs.foldl setAdd acc ↔ t ∈ acc ∨ t ∈ xs
  | [], acc => by simp
  | x :: xs, acc => by
    rw [List.foldl_cons, foldl_setAdd_mem t xs (setAdd acc x), setAdd_mem]
    simp [List.mem_cons, or_assoc]

theorem foldl_setAdd_nodup :
    ∀ (xs : List String) (acc : List String), acc.Nodup →
      (xs.foldl setAdd acc).Nodup
  | [], _, h => h
  | x :: xs, acc, h => foldl_setAdd_nodup xs (setAdd acc x) (setAdd_nodup acc x h)

theorem collect_fold_spec (t : String) :
    ∀ (manifests : List (String × ExtensionManifest))
      (acc : List String × List String),
      (t ∈ (manifests.foldl
          (fun acc kv =>
            ((kv.2.extension.tags.getD []).foldl setAdd acc.1,
             (kv.2.extension.requiredFeatures.getD []).foldl setAdd acc.2)) acc).1
        ↔ t ∈ acc.1 ∨ ∃ p, p ∈ manifests ∧ t ∈ p.2.extension.tags.getD [])
      ∧ (t ∈ (manifests.foldl
          (fun acc kv =>
            ((kv.2.extension.tags.getD []).foldl setAdd acc.1,
             (kv.2.extension.requiredFeatures.getD []).foldl setAdd acc.2)) acc).2
        ↔ t ∈ acc.2
            ∨ ∃ p, p ∈ manifests ∧ t ∈ p.2.extension.requiredFeatures.getD [])
  | [], acc => by simp
  | kv :: rest, acc => by
    rw [List.foldl_cons]
    constructor
    · rw [(collect_fold_spec t rest _).1]
      show (t ∈ (kv.2.extension.tags.getD []).foldl setAdd acc.1 ∨ _) ↔ _
      rw [foldl_setAdd_mem]
      constructor
      · rintro ((h | h) | ⟨p, hp, hmem⟩)
        · exact Or.inl h
        · exact Or.inr ⟨kv, List.mem_cons_self kv rest, h⟩
        · exact Or.inr ⟨p, List.mem_cons_of_mem kv hp, hmem⟩
      · rintro (h | ⟨p, hp, hmem⟩)
        · exact Or.inl (Or.inl h)
        · rcases List.mem_cons.mp hp with hp | hp
          · rw [hp] at hmem
            exact Or.inl (Or.inr hmem)
          · exact Or.inr ⟨p, hp, hmem⟩
    · rw [(collect_fold_spec t rest _).2]
      show (t ∈ (kv.2.extension.requiredFeatures.getD []).foldl setAdd acc.2 ∨ _) ↔ _
      rw [foldl_setAdd_mem]
      constructor
      · rintro ((h | h) | ⟨p, hp, hmem⟩)
        · exact Or.inl h
        · exact Or.inr ⟨kv, List.mem_cons_self kv rest, h⟩
        · exact Or.inr ⟨p, List.mem_cons_of_mem kv hp, hmem⟩
      · rintro (h | ⟨p, hp, hmem⟩)
        · exact Or.inl (Or.inl h)
        · rcases List.mem_cons.mp hp with hp | hp
          · rw [hp] at hmem
            exact Or.inl (Or.inr hmem)
          · exact Or.inr ⟨p, hp, hmem⟩

theorem collect_fold_nodup :
    ∀ (manifests : List (String × ExtensionManifest))
      (acc : List String × List String), acc.1.Nodup → acc.2.Nodup →
      ((manifests.foldl
          (fun acc kv =>
            ((kv.2.extension.tags.getD []).foldl setAdd acc.1,
             (kv.2.extension.requiredFeatures.getD []).foldl setAdd acc.2)) acc).1.Nodup
        ∧ (manifests.foldl
          (fun acc kv =>
            ((kv.2.extension.tags.getD []).foldl setAdd acc.1,
             (kv.2.extension.requiredFeatures.getD []).foldl setAdd acc.2)) acc).2.Nodup)
  | [], acc, h1, h2 => ⟨h1, h2⟩
  | kv :: rest, acc, h1, h2 => by
    rw [List.foldl_cons]
    exact collect_fold_nodup rest _
      (foldl_setAdd_nodup _ _ h1) (foldl_setAdd_nodup _ _ h2)

/-- C9: `collectTagsAndFeatures` returns exactly the deduplicated union
of all manifests' tags and of all manifests' `requiredFeatures` (an
undefined list contributing nothing), and `buildOutput` copies
`config.categories` verbatim, emits the tag and feature sets as
ascending duplicate-free sorted sequences, and attaches the extension
list unchanged. -/
theorem collectTags_buildOutput_spec :
    (∀ manifests : List (String × ExtensionManifest),
      ((collectTagsAndFeatures manifests).1.Nodup
        ∧ ∀ t, t ∈ (collectTagsAndFeatures manifests).1 ↔
            ∃ p, p ∈ manifests ∧ t ∈ p.2.extension.tags.getD [])
      ∧ ((collectTagsAndFeatures manifests).2.Nodup
        ∧ ∀ f, f ∈ (collectTagsAndFeatures manifests).2 ↔
            ∃ p, p ∈ manifests ∧ f ∈ p.2.extension.requiredFeatures.getD []))
    ∧ (∀ (exts : List Extension) (config : GalleryConfig) (tags feats : List String),
        (buildOutput exts config tags feats).categories = config.categories
        ∧ (buildOutput exts config tags feats).extensions = exts
        ∧ (∀ t, t ∈ (buildOutput exts config tags feats).tags ↔ t ∈ tags)
        ∧ (∀ f, f ∈ (buildOutput exts config tags feats).requiredFeatures ↔ f ∈ feats)
        ∧ (tags.Nodup →
            ((buildOutput exts config tags feats).tags.Nodup
              ∧ (buildOutput exts config tags feats).tags.Pairwise
                  (fun a b => cmpStr a b = Ordering.lt)))
        ∧ (feats.Nodup →
            ((buildOutput exts config tags feats).requiredFeatures.Nodup
              ∧ (buildOutput exts config tags feats).requiredFeatures.Pairwise
                  (fun a b => cmpStr a b = Ordering.lt)))) := by
  have hsortedStrict : ∀ (l : List String), l.Nodup →
      ((jsSortBy cmpStr l).Nodup
        ∧ (jsSortBy cmpStr l).Pairwise (fun a b => cmpStr a b = Ordering.lt)) := by
    intro l hl
    have hnd : (jsSortBy cmpStr l).Nodup := (jsSortBy_perm cmpStr l).nodup_iff.mpr hl
    refine ⟨hnd, ?_⟩
    have hle := jsSortBy_sorted cmpStrLaws l
    refine (hle.and hnd).imp ?_
    intro a b hab
    obtain ⟨hle', hne⟩ := hab
    cases hc : cmpStr a b with
    | lt => rfl
    | eq => exact absurd (cmpStr_eq hc) hne
    | gt => exact absurd hc hle'
  constructor
  · intro manifests
    refine ⟨⟨?_, ?_⟩, ?_, ?_⟩
    · exact (collect_fold_nodup manifests ([], []) List.nodup_nil List.nodup_nil).1
    · intro t
      have := (collect_fold_spec t manifests ([], [])).1
      simpa using this
    · exact (collect_fold_nodup manifests ([], []) List.nodup_nil List.nodup_nil).2
    · intro f
      have := (collect_fold_spec f manifests ([], [])).2
      simpa using this
  · intro exts config tags feats
    refine ⟨rfl, rfl, ?_, ?_, ?_, ?_⟩
    · intro t
      exact (jsSortBy_perm cmpStr tags).mem_iff
    · intro f
      exact (jsSortBy_perm cmpStr feats).mem_iff
    · intro h
      exact hsortedStrict tags h
    · intro h
      exact hsortedStrict feats h

/-- Fixture: manifest with tags `python, data` and feature `gpu`. -/
def manifestTagsA : ExtensionManifest :=
  { extension :=
      { name := "a", title := "t", description := "d", homepage := "h"
        version := "1.0.0", minimumConnectVersion := "m"
        requiredFeatures := some ["gpu"], category := none
        tags := some ["python", "data"] }
    environment := none }

/-- Fixture: manifest with tags `python, ml` and features `gpu, cuda`. -/
def manifestTagsB : ExtensionManifest :=
  { extension :=
      { name := "b", title := "t", description := "d", homepage := "h"
        version := "1.0.0", minimumConnectVersion := "m"
        requiredFeatures := some ["gpu", "cuda"], category := none
        tags := some ["python", "ml"] }
    environment := none }

set_option maxRecDepth 8192 in
/-- Witness for C9: duplicates collapse in the collector and the
assembler sorts `z-tag, a-tag` into `a-tag, z-tag`. -/
theorem collectTags_buildOutput_spec_witness :
    collectTagsAndFeatures [("a", manifestTagsA), ("b", manifestTagsB)]
        = (["python", "data", "ml"], ["gpu", "cuda"])
      ∧ (buildOutput [] { categories := [] } ["z-tag", "a-tag"]
          ["z-feat", "a-feat"]).tags = ["a-tag", "z-tag"]
      ∧ (buildOutput [] { categories := [] } ["z-tag", "a-tag"]
          ["z-feat", "a-feat"]).tags.Pairwise (fun a b => cmpStr a b = Ordering.lt)
      ∧ "python" ∈ (collectTagsAndFeatures
          [("a", manifestTagsA), ("b", manifestTagsB)]).1 := by
  refine ⟨rfl, rfl, ?_, ?_⟩
  · exact ((collectTags_buildOutput_spec.2 [] { categories := [] }
      ["z-tag", "a-tag"] ["z-feat", "a-feat"]).2.2.2.2.1 (by decide)).2
  · exact ((collectTags_buildOutput_spec.1
      [("a", manifestTagsA), ("b", manifestTagsB)]).1.2 ("python")).mpr
      ⟨("a", manifestTagsA), List.mem_cons_self _ _, by decide⟩

set_option maxRecDepth 8192 in
/-- Witness for C10: a body parsing to the array `[1,2]` gives the same
result as a body that is not JSON. -/
theorem parseExtensionRelease_nonObject_body_witness :
    parseExtensionRelease
        { tagName := "ext@v1.0.0", publishedAt := "d"
          assets := [{ name := "ext.tar.gz", url := "u" }], body := "[1,2]" }
        ("ext") manifestFull =
      parseExtensionRelease
        { tagName := "ext@v1.0.0", publishedAt := "d"
          assets := [{ name := "ext.tar.gz", url := "u" }], body := "not json" }
        ("ext") manifestFull :=
  parseExtensionRelease_nonObject_body
    { tagName := "ext@v1.0.0", publishedAt := "d"
      assets := [{ name := "ext.tar.gz", url := "u" }], body := "[1,2]" }
    ("ext") manifestFull (Json.arr [Json.num "1", Json.num "2"]) rfl
    (fun _ h => Json.noConfusion h) ("not json") rfl

/-- Witness for C2: a tag for another extension is rejected. -/
theorem parseExtensionRelease_none_iff_witness :
    parseExtensionRelease
        { tagName := "other-ext@v1.0.0", publishedAt := "d"
          assets := [{ name := "ext.tar.gz", url := "u" }], body := "" }
        ("ext") manifestExt = none :=
  (parseExtensionRelease_none_iff
    { tagName := "other-ext@v1.0.0", publishedAt := "d"
      assets := [{ name := "ext.tar.gz", url := "u" }], body := "" }
    ("ext") manifestExt).mpr (Or.inl rfl)
